import Mathlib

/-!
Verification of the check-cx health-check engine.

This file gives a shallow embedding of the pure core of the repository's
check engine — the Gemini stream-text merge and SSE line parser, Gemini URL
resolution, the model-directive parser, the forced request headers, the
timeout-error sanitizer, the per-provider result classification, the Gemini
two-attempt policy, and the poller's single-flight tick — and proves the
frozen claims about them.

Strings are modelled as `List Char` (`Str`), with JavaScript string
operations (`trim`, `split`, `startsWith`, `includes`, `toLowerCase`, …)
implemented explicitly so that their behaviour matches the JS semantics the
source relies on.  Platform calls that are external to the repository
(JSON.parse, the network, `validateResponse` from the absent challenge
module) are abstracted as function parameters of the models.
-/

/-- Strings are modelled as lists of characters. -/
abbrev Str := List Char

/-- Converts a Lean string literal into the `Str` model. -/
def lit (s : String) : Str := s.data

/-- JavaScript whitespace test restricted to the ASCII whitespace characters
that actually occur in the modelled data (space, tab, LF, CR). -/
def isWs (c : Char) : Bool :=
  c = ' ' || c = '\t' || c = '\n' || c = '\r'

/-- Drops leading whitespace, the first half of `String.prototype.trim`. -/
def dropLeadingWs (l : Str) : Str := l.dropWhile isWs

/-- Drops trailing whitespace, the second half of `String.prototype.trim`. -/
def dropTrailingWs (l : Str) : Str := (l.reverse.dropWhile isWs).reverse

/-- Model of JavaScript `String.prototype.trim`. -/
def jsTrim (l : Str) : Str := dropTrailingWs (dropLeadingWs l)

/-- Model of JavaScript `String.prototype.toLowerCase` on ASCII data. -/
def toLowerStr (l : Str) : Str := l.map Char.toLower

/-- Substring test, model of JavaScript `String.prototype.includes`. -/
def hasSubstr (pat : Str) : Str → Bool
  | [] => pat.isEmpty
  | c :: t => pat.isPrefixOf (c :: t) || hasSubstr pat t

/-- Model of JavaScript `String.prototype.split` with a one-character
separator: splits at every occurrence, keeping empty pieces. -/
def splitChar (c : Char) : Str → List Str
  | [] => [[]]
  | x :: t =>
    match splitChar c t with
    | [] => [[]]
    | h :: r => if x = c then [] :: h :: r else (x :: h) :: r

/-- Strips trailing `/` characters, model of `replace(/\/+$/, "")`. -/
def dropTrailingSlashes (l : Str) : Str := (l.reverse.dropWhile (· = '/')).reverse

/-- Decimal rendering of a number, as JS template interpolation produces. -/
def natStr (n : Nat) : Str := (toString n).data

/-- Strips one trailing carriage return, model of `replace(/\r$/, "")`. -/
def stripTrailingCR (l : Str) : Str :=
  if l.getLast? = some '\r' then l.dropLast else l

/- ### Basic lemmas about the string model -/

theorem dropLeadingWs_cons_of_neg {c : Char} {t : Str} (h : isWs c = false) :
    dropLeadingWs (c :: t) = c :: t := by
  simp [dropLeadingWs, List.dropWhile_cons, h]

theorem dropTrailingWs_ne_ws_last {l : Str} {c : Char}
    (hfix : dropTrailingWs l = l) (hlast : l.getLast? = some c) : isWs c = false := by
  rcases l.eq_nil_or_concat with rfl | ⟨l', a, rfl⟩
  · simp at hlast
  · simp only [List.concat_eq_append] at hfix hlast ⊢
    rw [List.getLast?_concat] at hlast
    obtain rfl : a = c := by injection hlast
    by_contra hws
    rw [Bool.not_eq_false] at hws
    have hrev := congrArg List.reverse hfix
    rw [dropTrailingWs, List.reverse_reverse, List.reverse_append] at hrev
    simp only [List.reverse_cons, List.reverse_nil, List.nil_append,
      List.singleton_append, List.dropWhile_cons_of_pos hws] at hrev
    have hlen := congrArg List.length hrev
    have hsf : l'.reverse.dropWhile isWs <:+ l'.reverse := List.dropWhile_suffix isWs
    have hle := hsf.sublist.length_le
    simp only [List.length_cons, List.length_reverse] at hlen hle
    omega

theorem dropTrailingWs_append {a b : Str} (hfix : dropTrailingWs b = b)
    (hne : b ≠ []) : dropTrailingWs (a ++ b) = a ++ b := by
  rcases b.eq_nil_or_concat with rfl | ⟨b', x, rfl⟩
  · exact absurd rfl hne
  · simp only [List.concat_eq_append] at hfix ⊢
    have hx : isWs x = false :=
      dropTrailingWs_ne_ws_last hfix (List.getLast?_concat _)
    have hx' : ¬ isWs x = true := by simp [hx]
    rw [dropTrailingWs, ← List.append_assoc, List.reverse_append,
      List.reverse_append]
    simp only [List.reverse_cons, List.reverse_nil, List.nil_append,
      List.singleton_append, List.dropWhile_cons_of_neg hx']
    simp

theorem jsTrim_fix_parts {l : Str} (h : jsTrim l = l) :
    dropLeadingWs l = l ∧ dropTrailingWs l = l := by
  have h1 : (dropLeadingWs l).length ≤ l.length :=
    (List.dropWhile_suffix isWs).sublist.length_le
  have h2 : (dropTrailingWs (dropLeadingWs l)).length ≤ (dropLeadingWs l).length := by
    have hsf : (dropLeadingWs l).reverse.dropWhile isWs <:+ (dropLeadingWs l).reverse :=
      List.dropWhile_suffix isWs
    simpa [dropTrailingWs] using hsf.sublist.length_le
  have hlen : l.length = (jsTrim l).length := by rw [h]
  rw [jsTrim] at hlen
  have e1 : (dropLeadingWs l).length = l.length := by omega
  have heq1 : dropLeadingWs l = l :=
    (List.dropWhile_suffix isWs).eq_of_length e1
  refine ⟨heq1, ?_⟩
  rw [jsTrim, heq1] at h
  exact h

theorem jsTrim_space_cons {p : Str} (hfix : jsTrim p = p) :
    jsTrim (' ' :: p) = p := by
  obtain ⟨h1, h2⟩ := jsTrim_fix_parts hfix
  rw [jsTrim, dropLeadingWs, List.dropWhile_cons_of_pos (by simp [isWs])]
  rw [← dropLeadingWs, h1]
  rcases eq_or_ne p [] with rfl | hne
  · rfl
  · exact h2

theorem jsTrim_fix_of_parts {p : Str} (h1 : dropLeadingWs p = p)
    (h2 : dropTrailingWs p = p) : jsTrim p = p := by
  rw [jsTrim, h1, h2]

theorem hasSubstr_of_append {a b c : Str} : hasSubstr b (a ++ b ++ c) = true := by
  induction a with
  | nil =>
    cases b with
    | nil => cases c <;> simp [hasSubstr, List.isEmpty]
    | cons x t =>
      simp only [List.nil_append, List.cons_append, hasSubstr, Bool.or_eq_true]
      left
      rw [List.isPrefixOf_iff_prefix]
      exact (List.prefix_append _ _)
  | cons x t ih =>
    simp only [List.cons_append, hasSubstr, Bool.or_eq_true]
    right
    exact ih

/- ### mergeStreamText (src/lib/providers/gemini-native.ts lines 92-103) -/

/-- Model of `mergeStreamText(previous, next)`: overlap-aware concatenation
of Gemini stream fragments.  `previous` is `string | null`; the JS falsy
test `!previous` is true for both `null` and the empty string. -/
def mergeStreamText (previous : Option Str) (next : Str) : Str :=
  match previous with
  | none => next
  | some p =>
    if p = [] then next
    else if p.isPrefixOf next then next
    else if next.isPrefixOf p then p
    else p ++ next

theorem mergeStreamText_none (n : Str) : mergeStreamText none n = n := rfl

/- ### Gemini SSE stream parsing (src/lib/providers/gemini-native.ts lines
105-201, duplicated in src/unnamed/part_002 lines 134-306).

The repository composes `JSON.parse` with `extractGeminiText` inside
`handlePayload`; both JSON parsing and the payload shape are external data,
so that composition is abstracted as a parameter
`pe : Str → Option Str` (`none` models a parse failure, a literal `null`
keep-alive payload, or a payload without extractable candidate text). -/

/-- State of the SSE line parser: the `data:` lines accumulated for the
current event, and the merged text so far (`string | null` in the source). -/
structure SseState where
  eventDataLines : List Str
  text : Option Str
deriving DecidableEq

/-- Model of `handlePayload`: skip blank and `[DONE]` payloads, parse the
rest, and merge any extracted non-blank text into the accumulator. -/
def handlePayload (pe : Str → Option Str) (text : Option Str) (payload : Str) :
    Option Str :=
  let t := jsTrim payload
  if t = [] ∨ t = lit "[DONE]" then text
  else
    match pe t with
    | none => text
    | some ext => if jsTrim ext = [] then text else some (mergeStreamText text ext)

/-- Model of `flushEvent`: join the accumulated `data:` lines with newlines
and hand them to `handlePayload`. -/
def flushEvent (pe : Str → Option Str) (st : SseState) : SseState :=
  if st.eventDataLines = [] then st
  else
    { eventDataLines := [],
      text := handlePayload pe st.text (List.intercalate (lit "\n") st.eventDataLines) }

/-- Model of `handleLine`: SSE framing with NDJSON/bare-JSON fallback. -/
def handleLine (pe : Str → Option Str) (st : SseState) (rawLine : Str) : SseState :=
  let line := stripTrailingCR rawLine
  let t := jsTrim line
  if t = [] then flushEvent pe st
  else if (lit "data:").isPrefixOf t then
    { st with eventDataLines := st.eventDataLines ++ [jsTrim (t.drop 5)] }
  else if (lit "event:").isPrefixOf t ∨ (lit "id:").isPrefixOf t ∨
      (lit "retry:").isPrefixOf t ∨ (lit ":").isPrefixOf t then st
  else if (lit "\x7b").isPrefixOf t ∨ (lit "[").isPrefixOf t ∨ t = lit "null" then
    let st' := flushEvent pe st
    { st' with text := handlePayload pe st'.text t }
  else st

/-- Runs the stream parser over a list of already-split lines and returns the
final merged text, as `readEventStreamText` / `parseEventStreamLikeText` do
after the trailing `flushEvent`. -/
def sseRunLines (pe : Str → Option Str) (lines : List Str) : Option Str :=
  (flushEvent pe (lines.foldl (handleLine pe) ⟨[], none⟩)).text

/- ### Gemini URL resolution (src/lib/providers/gemini-native.ts lines 36-52
and src/unnamed/part_002 lines 38-66). -/

/-- First two pieces of a JavaScript `split("?")` destructured as
`[base, query = ""]`: everything beyond the second `?` is discarded. -/
def splitBaseQuery (l : Str) : Str × Str :=
  match splitChar '?' l with
  | [] => ([], [])
  | [b] => (b, [])
  | b :: q :: _ => (b, q)

/-- Model of `resolveGeminiUrl(endpoint, model)`. -/
def resolveGeminiUrl (endpoint model : Str) : Str :=
  let trimmed := jsTrim endpoint
  if hasSubstr (lit ":streamGenerateContent") trimmed then trimmed
  else
    let (base, query) := splitBaseQuery trimmed
    let normalizedBase := dropTrailingSlashes base
    if (lit "/v1beta/models").isSuffixOf normalizedBase then
      let nextBase := normalizedBase ++ lit "/" ++ model ++ lit ":streamGenerateContent"
      if query ≠ [] then nextBase ++ lit "?" ++ query else nextBase
    else trimmed

/-- Gemini API action, from src/unnamed/part_002 line 20. -/
inductive GeminiAction
  | streamGenerateContent
  | generateContent
deriving DecidableEq

/-- Rendering of an action name as it appears in URLs. -/
def GeminiAction.str : GeminiAction → Str
  | .streamGenerateContent => lit "streamGenerateContent"
  | .generateContent => lit "generateContent"

/-- Replaces the first occurrence of `pat` by `rep`, model of the
single-replacement JavaScript `String.prototype.replace` with a string
pattern. -/
def replaceFirst (pat rep : Str) : Str → Str
  | [] => if pat.isEmpty then rep else []
  | c :: t =>
    if pat.isPrefixOf (c :: t) then rep ++ (c :: t).drop pat.length
    else c :: replaceFirst pat rep t

/-- Model of `resolveGeminiUrlForAction(endpoint, model, action)` from
src/unnamed/part_002 lines 38-66. -/
def resolveGeminiUrlForAction (endpoint model : Str) (action : GeminiAction) : Str :=
  let trimmed := jsTrim endpoint
  let (base, query) := splitBaseQuery trimmed
  let normalizedBase := dropTrailingSlashes base
  let withQuery := fun (nextBase : Str) =>
    if query ≠ [] then nextBase ++ lit "?" ++ query else nextBase
  let doneEarly : Option Str :=
    match action with
    | .streamGenerateContent =>
      if hasSubstr (lit ":streamGenerateContent") trimmed then some trimmed else none
    | .generateContent =>
      if hasSubstr (lit ":generateContent") trimmed then some trimmed
      else if hasSubstr (lit ":streamGenerateContent") trimmed then
        some (withQuery (replaceFirst (lit ":streamGenerateContent")
          (lit ":generateContent") base))
      else none
  match doneEarly with
  | some r => r
  | none =>
    if (lit "/v1beta/models").isSuffixOf normalizedBase then
      withQuery (normalizedBase ++ lit "/" ++ model ++ lit ":" ++ action.str)
    else trimmed

example : resolveGeminiUrl (lit " https://g.example/v1beta/models ") (lit "gemini-pro")
    = lit "https://g.example/v1beta/models/gemini-pro:streamGenerateContent" := by decide

example : resolveGeminiUrl (lit "https://g.example/v1beta/models?key=abc") (lit "m")
    = lit "https://g.example/v1beta/models/m:streamGenerateContent?key=abc" := by decide

example : resolveGeminiUrl (lit "https://g.example/v1beta/models?a?b") (lit "m")
    = lit "https://g.example/v1beta/models/m:streamGenerateContent?a" := by decide

example : resolveGeminiUrlForAction (lit "https://g.example/v1beta/models/m2:streamGenerateContent?k=1")
    (lit "m") .generateContent
    = lit "https://g.example/v1beta/models/m2:generateContent?k=1" := by decide

/- ### Lemmas for the SSE parser computation -/

theorem intercalate_singleton (sep : Str) (x : Str) :
    List.intercalate sep [x] = x := by
  simp [List.intercalate]

theorem stripTrailingCR_append_fix {a p : Str} (hfix : dropTrailingWs p = p)
    (hne : p ≠ []) : stripTrailingCR (a ++ p) = a ++ p := by
  rcases p.eq_nil_or_concat with rfl | ⟨p', x, rfl⟩
  · exact absurd rfl hne
  · simp only [List.concat_eq_append] at hfix ⊢
    have hx : isWs x = false :=
      dropTrailingWs_ne_ws_last hfix (List.getLast?_concat _)
    rw [stripTrailingCR, ← List.append_assoc, List.getLast?_concat]
    have : x ≠ '\r' := by
      intro h
      rw [h] at hx
      simp [isWs] at hx
    simp [this]

theorem jsTrim_cons_append {c : Char} {t p : Str} (hc : isWs c = false)
    (hfix : dropTrailingWs p = p) (hne : p ≠ []) :
    jsTrim ((c :: t) ++ p) = (c :: t) ++ p := by
  rw [jsTrim, List.cons_append, dropLeadingWs,
    List.dropWhile_cons_of_neg (by simp [hc]), ← List.cons_append]
  exact dropTrailingWs_append hfix hne

theorem handlePayload_parsed {pe : Str → Option Str} {text : Option Str}
    {p t : Str} (hfix : jsTrim p = p) (hne : p ≠ []) (hdone : p ≠ lit "[DONE]")
    (hpe : pe p = some t) (ht : jsTrim t ≠ []) :
    handlePayload pe text p = some (mergeStreamText text t) := by
  rw [handlePayload]
  simp only [hfix]
  rw [if_neg (by simp [hne, hdone]), hpe]
  simp only [if_neg ht]

theorem flushEvent_single (pe : Str → Option Str) (text : Option Str) (p : Str) :
    flushEvent pe ⟨[p], text⟩ = ⟨[], handlePayload pe text p⟩ := by
  rw [flushEvent]
  simp [intercalate_singleton]

theorem handleLine_dataLine (pe : Str → Option Str) (st : SseState) {p : Str}
    (hfix : jsTrim p = p) (hne : p ≠ []) :
    handleLine pe st (lit "data: " ++ p) =
      { st with eventDataLines := st.eventDataLines ++ [p] } := by
  have hfix2 := (jsTrim_fix_parts hfix).2
  have hstrip : stripTrailingCR (lit "data: " ++ p) = lit "data: " ++ p :=
    stripTrailingCR_append_fix hfix2 hne
  have hcons : lit "data: " ++ p = ('d' :: lit "ata: ") ++ p := rfl
  have htrim : jsTrim (lit "data: " ++ p) = lit "data: " ++ p := by
    rw [hcons]
    exact jsTrim_cons_append (by simp [isWs]) hfix2 hne
  have hnil : lit "data: " ++ p ≠ [] := by simp [lit]
  have hpre : (lit "data:").isPrefixOf (lit "data: " ++ p) = true := by
    rw [List.isPrefixOf_iff_prefix]
    have : lit "data: " ++ p = lit "data:" ++ (' ' :: p) := rfl
    rw [this]
    exact List.prefix_append _ _
  have hdrop : (lit "data: " ++ p).drop 5 = ' ' :: p := rfl
  rw [handleLine]
  simp only [hstrip, htrim, if_neg hnil, hpre, hdrop, jsTrim_space_cons hfix]
  simp

theorem handleLine_blank (pe : Str → Option Str) (st : SseState) :
    handleLine pe st [] = flushEvent pe st := rfl

/-- Merge keeps the newer fragment when the accumulated text is its prefix. -/
theorem mergeStreamText_of_pre {p n : Str} (h : p = [] ∨ p <+: n) :
    mergeStreamText (some p) n = n := by
  rw [mergeStreamText]
  rcases h with rfl | hp
  · simp
  · rcases eq_or_ne p [] with rfl | hne
    · simp
    · rw [if_neg hne, if_pos (List.isPrefixOf_iff_prefix.mpr hp)]

/-- C6: for all strings p and n, the Gemini stream-fragment merge returns n
when the accumulated text p is empty or a prefix of the new fragment n,
returns p when n is a prefix of p, and returns the concatenation p ++ n
otherwise; consequently, feeding the stream parser two `data:` events where
the second event's extracted text contains the first as a prefix
reconstructs final text equal to the second event's text, with no
duplication.  (`pe` abstracts the external `JSON.parse` +
`extractGeminiText` composition; the hypotheses say that each event carries
a single trimmed, non-`[DONE]` payload line from which non-blank text is
extracted.) -/
theorem mergeStreamText_and_sse_no_duplication :
    (∀ (p n : Str),
      ((p = [] ∨ p <+: n) → mergeStreamText (some p) n = n) ∧
      (n <+: p → mergeStreamText (some p) n = p) ∧
      (¬ (p = [] ∨ p <+: n) → ¬ n <+: p → mergeStreamText (some p) n = p ++ n)) ∧
    (∀ (pe : Str → Option Str) (p1 p2 t1 t2 : Str),
      jsTrim p1 = p1 → p1 ≠ [] → p1 ≠ lit "[DONE]" →
      jsTrim p2 = p2 → p2 ≠ [] → p2 ≠ lit "[DONE]" →
      pe p1 = some t1 → pe p2 = some t2 →
      jsTrim t1 ≠ [] → jsTrim t2 ≠ [] →
      t1 <+: t2 →
      sseRunLines pe [lit "data: " ++ p1, [], lit "data: " ++ p2, []] = some t2) := by
  constructor
  · intro p n
    refine ⟨mergeStreamText_of_pre, ?_, ?_⟩
    · intro hnp
      rw [mergeStreamText]
      rcases eq_or_ne p [] with rfl | hne
      · have : n = [] := List.prefix_nil.mp hnp
        simp [this]
      · rw [if_neg hne]
        by_cases hpn : p <+: n
        · have : p = n := hpn.eq_of_length_le hnp.length_le
          subst this
          rw [if_pos (List.isPrefixOf_iff_prefix.mpr hpn)]
        · rw [if_neg (by simpa [List.isPrefixOf_iff_prefix] using hpn),
            if_pos (List.isPrefixOf_iff_prefix.mpr hnp)]
    · intro h1 h2
      rw [mergeStreamText]
      push_neg at h1
      rw [if_neg h1.1, if_neg (by simpa [List.isPrefixOf_iff_prefix] using h1.2),
        if_neg (by simpa [List.isPrefixOf_iff_prefix] using h2)]
  · intro pe p1 p2 t1 t2 hf1 hn1 hd1 hf2 hn2 hd2 hpe1 hpe2 ht1 ht2 hpre
    have s1 : handleLine pe ⟨[], none⟩ (lit "data: " ++ p1) = ⟨[p1], none⟩ := by
      rw [handleLine_dataLine pe _ hf1 hn1]
      rfl
    have s2 : handleLine pe ⟨[p1], none⟩ [] = ⟨[], some t1⟩ := by
      rw [handleLine_blank, flushEvent_single,
        handlePayload_parsed hf1 hn1 hd1 hpe1 ht1, mergeStreamText_none]
    have s3 : handleLine pe ⟨[], some t1⟩ (lit "data: " ++ p2) = ⟨[p2], some t1⟩ := by
      rw [handleLine_dataLine pe _ hf2 hn2]
      rfl
    have s4 : handleLine pe ⟨[p2], some t1⟩ [] = ⟨[], some t2⟩ := by
      rw [handleLine_blank, flushEvent_single,
        handlePayload_parsed hf2 hn2 hd2 hpe2 ht2,
        mergeStreamText_of_pre (Or.inr hpre)]
    rw [sseRunLines]
    simp only [List.foldl_cons, List.foldl_nil, s1, s2, s3, s4]
    rfl

/-- Witness for `mergeStreamText_and_sse_no_duplication` at concrete inputs:
the merge keeps the longer cumulative fragment, and two cumulative `data:`
events produce the second event's text exactly once. -/
theorem mergeStreamText_and_sse_no_duplication_witness :
    mergeStreamText (some (lit "3 +")) (lit "3 + 5 = 8") = lit "3 + 5 = 8" ∧
    sseRunLines
      (fun s => if s = lit "P1" then some (lit "3 +")
        else if s = lit "P2" then some (lit "3 + 5 = 8") else none)
      [lit "data: P1", [], lit "data: P2", []] = some (lit "3 + 5 = 8") := by
  constructor
  · exact (mergeStreamText_and_sse_no_duplication.1 (lit "3 +") (lit "3 + 5 = 8")).1
      (Or.inr (by decide))
  · exact mergeStreamText_and_sse_no_duplication.2
      (fun s => if s = lit "P1" then some (lit "3 +")
        else if s = lit "P2" then some (lit "3 + 5 = 8") else none)
      (lit "P1") (lit "P2") (lit "3 +") (lit "3 + 5 = 8")
      (by decide) (by decide) (by decide) (by decide) (by decide) (by decide)
      (by decide) (by decide) (by decide) (by decide) (by decide)

/- ### Claim C8: Gemini streaming-URL resolution -/

theorem splitChar_head (c : Char) (l : Str) :
    ∃ r, splitChar c l = l.takeWhile (· ≠ c) :: r := by
  induction l with
  | nil => exact ⟨[], rfl⟩
  | cons x t ih =>
    obtain ⟨r, hr⟩ := ih
    rw [splitChar, hr]
    by_cases hx : x = c
    · subst hx
      refine ⟨t.takeWhile (· ≠ x) :: r, ?_⟩
      simp [List.takeWhile_cons]
    · refine ⟨r, ?_⟩
      simp [List.takeWhile_cons, hx]

theorem splitBaseQuery_eq (l : Str) :
    splitBaseQuery l =
      (l.takeWhile (· ≠ '?'),
       ((l.dropWhile (· ≠ '?')).drop 1).takeWhile (· ≠ '?')) := by
  induction l with
  | nil => rfl
  | cons x t ih =>
    by_cases hx : x = '?'
    · subst hx
      obtain ⟨r, hr⟩ := splitChar_head '?' t
      rw [splitBaseQuery]
      simp only [splitChar, hr]
      simp [List.takeWhile_cons, List.dropWhile_cons]
    · obtain ⟨r, hr⟩ := splitChar_head '?' t
      have e1 : splitChar '?' (x :: t)
          = (x :: List.takeWhile (fun a => decide (a ≠ '?')) t) :: r := by
        simp only [splitChar, hr]
        rw [if_neg hx]
      have e2 : List.takeWhile (fun a => decide (a ≠ '?')) (x :: t)
          = x :: List.takeWhile (fun a => decide (a ≠ '?')) t := by
        simp [List.takeWhile_cons, hx]
      have e3 : List.dropWhile (fun a => decide (a ≠ '?')) (x :: t)
          = List.dropWhile (fun a => decide (a ≠ '?')) t := by
        simp [List.dropWhile_cons, hx]
      rw [splitBaseQuery, hr] at ih
      rw [splitBaseQuery, e1, e2, e3]
      cases r with
      | nil =>
        have h2 := congrArg Prod.snd ih
        simp only at h2
        rw [← h2]
      | cons q r' =>
        have h2 := congrArg Prod.snd ih
        simp only at h2
        rw [← h2]

/-- Statement of claim C8 as written, as a function: the query string — all
of it — is preserved when the `/{model}:streamGenerateContent` suffix is
appended. -/
def resolveGeminiUrlClaimSpec (endpoint model : Str) : Str :=
  let trimmed := jsTrim endpoint
  if hasSubstr (lit ":streamGenerateContent") trimmed then trimmed
  else
    let base := trimmed.takeWhile (· ≠ '?')
    let query := (trimmed.dropWhile (· ≠ '?')).drop 1
    let normalizedBase := dropTrailingSlashes base
    if (lit "/v1beta/models").isSuffixOf normalizedBase then
      let nextBase := normalizedBase ++ lit "/" ++ model ++ lit ":streamGenerateContent"
      if query ≠ [] then nextBase ++ lit "?" ++ query else nextBase
    else trimmed

/-- Amended claim C8 as a function: only the query text between the first
and second `?` survives; anything after a second `?` is discarded. -/
def resolveGeminiUrlAmendedSpec (endpoint model : Str) : Str :=
  let trimmed := jsTrim endpoint
  if hasSubstr (lit ":streamGenerateContent") trimmed then trimmed
  else
    let base := trimmed.takeWhile (· ≠ '?')
    let query := ((trimmed.dropWhile (· ≠ '?')).drop 1).takeWhile (· ≠ '?')
    let normalizedBase := dropTrailingSlashes base
    if (lit "/v1beta/models").isSuffixOf normalizedBase then
      let nextBase := normalizedBase ++ lit "/" ++ model ++ lit ":streamGenerateContent"
      if query ≠ [] then nextBase ++ lit "?" ++ query else nextBase
    else trimmed

/-- C8 counterexample: with a second `?` inside the query, the code keeps
only the text between the first and second `?`, so the original query
string is not preserved as the claim states. -/
theorem resolveGeminiUrl_drops_second_query_part :
    resolveGeminiUrl (lit "https://g.example/v1beta/models?key=abc?extra=1")
        (lit "gemini-pro")
      = lit "https://g.example/v1beta/models/gemini-pro:streamGenerateContent?key=abc" ∧
    resolveGeminiUrlClaimSpec (lit "https://g.example/v1beta/models?key=abc?extra=1")
        (lit "gemini-pro")
      = lit "https://g.example/v1beta/models/gemini-pro:streamGenerateContent?key=abc?extra=1" ∧
    resolveGeminiUrl (lit "https://g.example/v1beta/models?key=abc?extra=1")
        (lit "gemini-pro")
      ≠ resolveGeminiUrlClaimSpec (lit "https://g.example/v1beta/models?key=abc?extra=1")
        (lit "gemini-pro") := by
  refine ⟨by decide, by decide, by decide⟩

/-- C8 (amended): for every endpoint and model, Gemini streaming-URL
resolution returns the trimmed endpoint unchanged when it already contains
`:streamGenerateContent`; otherwise, when the query-stripped base with
trailing slashes removed ends in `/v1beta/models`, it returns that base
with `/{model}:streamGenerateContent` appended and the query text between
the first and second `?` (if non-empty) preserved; in all other cases it
returns the trimmed endpoint as-is. -/
theorem resolveGeminiUrl_amended_spec (endpoint model : Str) :
    resolveGeminiUrl endpoint model = resolveGeminiUrlAmendedSpec endpoint model := by
  rw [resolveGeminiUrl, resolveGeminiUrlAmendedSpec, splitBaseQuery_eq]

/- ### Claim C9: parseModelDirective
(src/lib/providers/ai-sdk-check.ts lines 108-183) -/

/-- Reasoning-effort level, from ai-sdk-check.ts line 98. -/
inductive ReasoningEffort
  | low
  | medium
  | high
deriving DecidableEq

/-- The `EFFORT_ALIAS_MAP` of ai-sdk-check.ts lines 108-114, as the list of
alternatives of the directive regex together with their mapped levels. -/
def effortAliasList : List (Str × ReasoningEffort) :=
  [(lit "mini", .low), (lit "minimal", .low), (lit "low", .low),
   (lit "medium", .medium), (lit "high", .high)]

/-- Tries to split `s` as `base ++ sep ++ lvl'` where `sep ∈ \x7b@,#\x7d` and
`lvl'` equals `lvl` case-insensitively, returning the base.  Together with
`findDirective` this implements the anchored regex
`^(.*?)[@#](mini|minimal|low|medium|high)$/i`: the regex matches exactly
when the string ends in a separator followed by a level, and since no level
is a suffix of another level and no level contains a separator character,
that decomposition — hence the captured base — is unique, so testing the
alternatives in any fixed order is equivalent to the regex. -/
def matchEffortSuffix (s : Str) (lvl : Str) : Option Str :=
  if lvl.isSuffixOf (toLowerStr s) then
    match (s.take (s.length - lvl.length)).getLast? with
    | some sep =>
      if sep = '@' ∨ sep = '#' then some (s.take (s.length - lvl.length)).dropLast
      else none
    | none => none
  else none

/-- Tries each level alternative in turn; see `matchEffortSuffix`. -/
def findDirective : List (Str × ReasoningEffort) → Str → Option (Str × ReasoningEffort)
  | [], _ => none
  | le :: rest, s =>
    match matchEffortSuffix s le.1 with
    | some base => some (base, le.2)
    | none => findDirective rest s

/-- JavaScript regex word character, `[A-Za-z0-9_]`. -/
def isWordChar (c : Char) : Bool := c.isAlpha || c.isDigit || c = '_'

/-- Word-boundary test for the position after `prev` (`none` = string start). -/
def boundaryOk : Option Char → Bool
  | none => true
  | some p => !isWordChar p

/-- Tests `/\bpat/` against a lowercased string: some position starts with
`pat` and is preceded by start-of-string or a non-word character. -/
def hasBoundaryPat (pat : Str) : Option Char → Str → Bool
  | _, [] => false
  | prev, c :: t =>
    (boundaryOk prev && pat.isPrefixOf (c :: t)) || hasBoundaryPat pat (some c) t

/-- Tests `/\bo[1-9]/` against a lowercased string. -/
def hasODigitPat : Option Char → Str → Bool
  | _, [] => false
  | prev, c :: t =>
    (boundaryOk prev && c = 'o' &&
      (match t.head? with
       | some d => decide ('1' ≤ d) && decide (d ≤ '9')
       | none => false)) || hasODigitPat (some c) t

/-- The `REASONING_MODEL_HINTS` regex list of ai-sdk-check.ts lines 127-133.
All five patterns are case-insensitive, so they are tested against the
lowercased string (lowercasing preserves word-character status, hence the
`\b` positions). -/
def reasoningModelHint (s : Str) : Bool :=
  let low := toLowerStr s
  hasSubstr (lit "codex") low ||
  hasBoundaryPat (lit "gpt-5") none low ||
  hasODigitPat none low ||
  hasSubstr (lit "deepseek-r1") low ||
  hasSubstr (lit "qwq") low

/-- Model of `parseModelDirective(model)` from ai-sdk-check.ts lines
158-183.  `base.trim() || trimmed` is the JS falsy fallback: an empty
trimmed base yields the whole trimmed model string. -/
def parseModelDirective (model : Str) : Str × Option ReasoningEffort :=
  if jsTrim model = [] then (model, none)
  else
    match findDirective effortAliasList (jsTrim model) with
    | some (base, eff) =>
      (if jsTrim base = [] then jsTrim model else jsTrim base, some eff)
    | none =>
      if reasoningModelHint (jsTrim model) then (jsTrim model, some .medium)
      else (jsTrim model, none)

example : parseModelDirective (lit "o1@high") = (lit "o1", some .high) := by decide
example : parseModelDirective (lit "o1#LOW") = (lit "o1", some .low) := by decide
example : parseModelDirective (lit "gpt-4o") = (lit "gpt-4o", none) := by decide
example : parseModelDirective (lit "o1") = (lit "o1", some .medium) := by decide
example : parseModelDirective (lit "deepseek-r1") = (lit "deepseek-r1", some .medium) := by decide
example : parseModelDirective (lit "gpt-4o-mini") = (lit "gpt-4o-mini", none) := by decide
example : parseModelDirective (lit "foo1") = (lit "foo1", none) := by decide
example : parseModelDirective (lit "my-o3-model@minimal") = (lit "my-o3-model", some .low) := by decide

theorem toLower_sep {sep : Char} (hsep : sep = '@' ∨ sep = '#') :
    sep.toLower = sep := by
  rcases hsep with rfl | rfl <;> decide

theorem matchEffortSuffix_hit {b raw lvl : Str} {sep : Char}
    (hsep : sep = '@' ∨ sep = '#') (hlow : toLowerStr raw = lvl) :
    matchEffortSuffix (b ++ sep :: raw) lvl = some b := by
  have hlen : raw.length = lvl.length := by
    rw [← hlow]; simp [toLowerStr]
  have hlowered : toLowerStr (b ++ sep :: raw) = (toLowerStr b ++ [sep]) ++ lvl := by
    show List.map Char.toLower (b ++ sep :: raw) = (List.map Char.toLower b ++ [sep]) ++ lvl
    rw [List.map_append, List.map_cons, toLower_sep hsep,
      show List.map Char.toLower raw = lvl from hlow, List.append_cons]
  have hsuf : lvl.isSuffixOf (toLowerStr (b ++ sep :: raw)) = true := by
    rw [List.isSuffixOf_iff_suffix, hlowered]
    exact List.suffix_append _ _
  have hlen2 : (b ++ sep :: raw).length - lvl.length = (b ++ [sep]).length := by
    simp only [List.length_append, List.length_cons, List.length_nil]
    omega
  have htake : (b ++ sep :: raw).take ((b ++ sep :: raw).length - lvl.length)
      = b ++ [sep] := by
    rw [hlen2, List.append_cons b sep raw, List.take_left]
  rw [matchEffortSuffix, if_pos hsuf, htake]
  rw [List.getLast?_concat]
  show (if sep = '@' ∨ sep = '#' then some (b ++ [sep]).dropLast else none) = some b
  rw [if_pos hsep]
  simp

theorem matchEffortSuffix_miss {b raw lvl lvl' : Str} {sep : Char}
    (hsep : sep = '@' ∨ sep = '#') (hlow : toLowerStr raw = lvl)
    (hnsuf : ¬ lvl' <:+ lvl) (hna : '@' ∉ lvl') (hnh : '#' ∉ lvl') :
    matchEffortSuffix (b ++ sep :: raw) lvl' = none := by
  have hlowered : toLowerStr (b ++ sep :: raw) = toLowerStr b ++ sep :: lvl := by
    show List.map Char.toLower (b ++ sep :: raw) = List.map Char.toLower b ++ sep :: lvl
    rw [List.map_append, List.map_cons, toLower_sep hsep,
      show List.map Char.toLower raw = lvl from hlow]
  have hfalse : lvl'.isSuffixOf (toLowerStr (b ++ sep :: raw)) = false := by
    rw [Bool.eq_false_iff]
    intro htrue
    have hsuf' : lvl' <:+ toLowerStr b ++ sep :: lvl := by
      rw [← hlowered]
      exact List.isSuffixOf_iff_suffix.mp htrue
    have hsl : sep :: lvl <:+ toLowerStr b ++ sep :: lvl := List.suffix_append _ _
    rcases Nat.lt_or_ge lvl.length lvl'.length with hlt | hge
    · have hsub : sep :: lvl <:+ lvl' := by
        refine List.suffix_of_suffix_length_le hsl hsuf' ?_
        simp only [List.length_cons]
        omega
      have : sep ∈ lvl' := hsub.subset (List.mem_cons_self _ _)
      rcases hsep with rfl | rfl
      · exact hna this
      · exact hnh this
    · have hlvl : lvl <:+ toLowerStr b ++ sep :: lvl := by
        rw [List.append_cons]
        exact List.suffix_append _ _
      exact hnsuf (List.suffix_of_suffix_length_le hsuf' hlvl hge)
  rw [matchEffortSuffix, hfalse]
  simp

theorem matchEffortSuffix_sound {s lvl : Str} {b : Str}
    (h : matchEffortSuffix s lvl = some b) :
    ∃ (sep : Char) (raw : Str),
      s = b ++ sep :: raw ∧ (sep = '@' ∨ sep = '#') ∧ toLowerStr raw = lvl := by
  rw [matchEffortSuffix] at h
  by_cases hsuf : lvl.isSuffixOf (toLowerStr s) = true
  · rw [if_pos hsuf] at h
    have hpre : s.take (s.length - lvl.length) = s.take (s.length - lvl.length) := rfl
    generalize hpre2 : s.take (s.length - lvl.length) = pre at h
    rcases hlast : pre.getLast? with _ | sep
    · rw [hlast] at h
      exact absurd h (by simp)
    · rw [hlast] at h
      have h2 : (if sep = '@' ∨ sep = '#' then some pre.dropLast else none) = some b := h
      by_cases hsep : sep = '@' ∨ sep = '#'
      · rw [if_pos hsep] at h2
        have hb : b = pre.dropLast := by
          injection h2 with h'
          exact h'.symm
        have hprene : pre ≠ [] := by
          intro hnil
          rw [hnil] at hlast
          simp at hlast
        have hgl : pre.getLast hprene = sep := by
          have := List.getLast?_eq_getLast pre hprene
          rw [this] at hlast
          injection hlast
        have hpredecomp : pre = b ++ [sep] := by
          rw [hb, ← hgl]
          exact (List.dropLast_concat_getLast hprene).symm
        have hsplit : s = pre ++ s.drop (s.length - lvl.length) := by
          rw [← hpre2, List.take_append_drop]
        refine ⟨sep, s.drop (s.length - lvl.length), ?_, hsep, ?_⟩
        · rw [List.append_cons, ← hpredecomp]
          exact hsplit
        · have hlvllen : lvl.length ≤ (toLowerStr s).length :=
            (List.isSuffixOf_iff_suffix.mp hsuf).sublist.length_le
          rw [toLowerStr, List.length_map] at hlvllen
          have hrawlen : (s.drop (s.length - lvl.length)).length = lvl.length := by
            rw [List.length_drop]
            omega
          have hmap : toLowerStr s = toLowerStr pre ++ toLowerStr (s.drop (s.length - lvl.length)) := by
            rw [toLowerStr, toLowerStr, toLowerStr, ← List.map_append]
            exact congrArg _ hsplit
          have hsufraw : toLowerStr (s.drop (s.length - lvl.length)) <:+ toLowerStr s := by
            rw [hmap]
            exact List.suffix_append _ _
          have hsuflvl := List.isSuffixOf_iff_suffix.mp hsuf
          have hlenraw : (toLowerStr (s.drop (s.length - lvl.length))).length = lvl.length := by
            rw [toLowerStr, List.length_map]
            exact hrawlen
          have : lvl <:+ toLowerStr (s.drop (s.length - lvl.length)) :=
            List.suffix_of_suffix_length_le hsuflvl hsufraw (by omega)
          exact (this.eq_of_length (by omega)).symm
      · rw [if_neg hsep] at h2
        exact absurd h2 (by simp)
  · rw [if_neg hsuf] at h
    exact absurd h (by simp)

theorem findDirective_cons_none {le : Str × ReasoningEffort}
    {rest : List (Str × ReasoningEffort)} {s : Str}
    (h : matchEffortSuffix s le.1 = none) :
    findDirective (le :: rest) s = findDirective rest s := by
  show (match matchEffortSuffix s le.1 with
    | some base => some (base, le.2)
    | none => findDirective rest s) = findDirective rest s
  rw [h]

theorem findDirective_cons_some {le : Str × ReasoningEffort}
    {rest : List (Str × ReasoningEffort)} {s base : Str}
    (h : matchEffortSuffix s le.1 = some base) :
    findDirective (le :: rest) s = some (base, le.2) := by
  show (match matchEffortSuffix s le.1 with
    | some base => some (base, le.2)
    | none => findDirective rest s) = some (base, le.2)
  rw [h]

theorem findDirective_hit {b raw lvl : Str} {sep : Char} {eff : ReasoningEffort}
    (hsep : sep = '@' ∨ sep = '#') (hmem : (lvl, eff) ∈ effortAliasList)
    (hlow : toLowerStr raw = lvl) :
    findDirective effortAliasList (b ++ sep :: raw) = some (b, eff) := by
  rw [effortAliasList] at hmem
  simp only [List.mem_cons, List.not_mem_nil, or_false, Prod.mk.injEq] at hmem
  rw [effortAliasList]
  rcases hmem with ⟨rfl, rfl⟩ | ⟨rfl, rfl⟩ | ⟨rfl, rfl⟩ | ⟨rfl, rfl⟩ | ⟨rfl, rfl⟩
  · rw [findDirective_cons_some (matchEffortSuffix_hit hsep hlow)]
  · rw [findDirective_cons_none (matchEffortSuffix_miss hsep hlow
        (by decide) (by decide) (by decide)),
      findDirective_cons_some (matchEffortSuffix_hit hsep hlow)]
  · rw [findDirective_cons_none (matchEffortSuffix_miss hsep hlow
        (by decide) (by decide) (by decide)),
      findDirective_cons_none (matchEffortSuffix_miss hsep hlow
        (by decide) (by decide) (by decide)),
      findDirective_cons_some (matchEffortSuffix_hit hsep hlow)]
  · rw [findDirective_cons_none (matchEffortSuffix_miss hsep hlow
        (by decide) (by decide) (by decide)),
      findDirective_cons_none (matchEffortSuffix_miss hsep hlow
        (by decide) (by decide) (by decide)),
      findDirective_cons_none (matchEffortSuffix_miss hsep hlow
        (by decide) (by decide) (by decide)),
      findDirective_cons_some (matchEffortSuffix_hit hsep hlow)]
  · rw [findDirective_cons_none (matchEffortSuffix_miss hsep hlow
        (by decide) (by decide) (by decide)),
      findDirective_cons_none (matchEffortSuffix_miss hsep hlow
        (by decide) (by decide) (by decide)),
      findDirective_cons_none (matchEffortSuffix_miss hsep hlow
        (by decide) (by decide) (by decide)),
      findDirective_cons_none (matchEffortSuffix_miss hsep hlow
        (by decide) (by decide) (by decide)),
      findDirective_cons_some (matchEffortSuffix_hit hsep hlow)]

theorem findDirective_sound {L : List (Str × ReasoningEffort)} {s : Str}
    {pr : Str × ReasoningEffort} (h : findDirective L s = some pr) :
    ∃ lvl : Str, (lvl, pr.2) ∈ L ∧ matchEffortSuffix s lvl = some pr.1 := by
  induction L with
  | nil => exact absurd h (by simp [findDirective])
  | cons le rest ih =>
    rcases hm : matchEffortSuffix s le.1 with _ | b0
    · rw [findDirective_cons_none hm] at h
      obtain ⟨lvl, hmem, hms⟩ := ih h
      exact ⟨lvl, List.mem_cons_of_mem _ hmem, hms⟩
    · rw [findDirective_cons_some hm] at h
      injection h with h'
      refine ⟨le.1, ?_, ?_⟩
      · rw [← h']
        exact List.mem_cons_self _ _
      · rw [← h']
        exact hm

/-- C9 counterexample: for the model string "@high" the directive suffix
matches with an empty base (`"@high" = "" ++ '@' :: "high"`), but the code's
`base.trim() || trimmed` fallback returns the whole trimmed string "@high"
as modelId, not the empty trimmed base the claim prescribes. -/
theorem parseModelDirective_empty_base :
    jsTrim (lit "@high") = [] ++ '@' :: lit "high" ∧
    parseModelDirective (lit "@high") = (lit "@high", some ReasoningEffort.high) ∧
    (parseModelDirective (lit "@high")).1 ≠ jsTrim ([] : Str) := by
  refine ⟨by decide, by decide, by decide⟩

/-- C9 (amended): for every model string, parseModelDirective strips a
trailing `@level` or `#level` suffix (case-insensitive, level ∈ mini,
minimal, low, medium, high), returning the trimmed base as modelId — or the
whole trimmed model string when that base is empty — with reasoningEffort
mapped mini→low, minimal→low, low→low, medium→medium, high→high; with no
such suffix and a non-blank model string, a model name matching the known
reasoning-model hint patterns (codex, gpt-5, o1–o9 behind a word boundary,
deepseek-r1, qwq) gets reasoningEffort "medium" and any other model gets no
reasoningEffort; a blank model string is returned unchanged with no
effort. -/
theorem parseModelDirective_amended :
    (∀ (m b raw lvl : Str) (sep : Char) (eff : ReasoningEffort),
      jsTrim m = b ++ sep :: raw →
      (sep = '@' ∨ sep = '#') →
      (lvl, eff) ∈ effortAliasList →
      toLowerStr raw = lvl →
      parseModelDirective m =
        (if jsTrim b = [] then b ++ sep :: raw else jsTrim b, some eff)) ∧
    (∀ m : Str, jsTrim m ≠ [] →
      (¬ ∃ (b raw lvl : Str) (sep : Char) (eff : ReasoningEffort),
        jsTrim m = b ++ sep :: raw ∧ (sep = '@' ∨ sep = '#') ∧
        (lvl, eff) ∈ effortAliasList ∧ toLowerStr raw = lvl) →
      parseModelDirective m =
        (jsTrim m, if reasoningModelHint (jsTrim m) then some .medium else none)) ∧
    (∀ m : Str, jsTrim m = [] → parseModelDirective m = (m, none)) := by
  refine ⟨?_, ?_, ?_⟩
  · intro m b raw lvl sep eff hdec hsep hmem hlow
    have hne : jsTrim m ≠ [] := by
      rw [hdec]
      simp
    have hfd : findDirective effortAliasList (jsTrim m) = some (b, eff) := by
      rw [hdec]
      exact findDirective_hit hsep hmem hlow
    rw [parseModelDirective, if_neg hne, hfd]
    show (if jsTrim b = [] then jsTrim m else jsTrim b, some eff)
      = (if jsTrim b = [] then b ++ sep :: raw else jsTrim b, some eff)
    rw [hdec]
  · intro m hne hnex
    have hfd : findDirective effortAliasList (jsTrim m) = none := by
      rcases hcase : findDirective effortAliasList (jsTrim m) with _ | pr
      · rfl
      · exfalso
        obtain ⟨lvl, hmem, hms⟩ := findDirective_sound hcase
        obtain ⟨sep, raw, hdec, hsep, hlow⟩ := matchEffortSuffix_sound hms
        exact hnex ⟨pr.1, raw, lvl, sep, pr.2, hdec, hsep, hmem, hlow⟩
    rw [parseModelDirective, if_neg hne, hfd]
    show (if reasoningModelHint (jsTrim m) then (jsTrim m, some ReasoningEffort.medium)
        else (jsTrim m, none))
      = (jsTrim m, if reasoningModelHint (jsTrim m) then some .medium else none)
    by_cases hh : reasoningModelHint (jsTrim m) = true
    · rw [if_pos hh, if_pos hh]
    · rw [if_neg hh, if_neg hh]
  · intro m h
    rw [parseModelDirective, if_pos h]

/-- Witness for `parseModelDirective_amended` at concrete inputs: an
explicit `@high` directive, a plain non-reasoning model, and a blank model
string. -/
theorem parseModelDirective_amended_witness :
    parseModelDirective (lit "o1@high") = (lit "o1", some ReasoningEffort.high) ∧
    parseModelDirective (lit "gpt-4o") = (lit "gpt-4o", none) ∧
    parseModelDirective (lit " ") = (lit " ", none) := by
  refine ⟨?_, ?_, ?_⟩
  · have h := parseModelDirective_amended.1 (lit "o1@high") (lit "o1") (lit "high")
      (lit "high") '@' ReasoningEffort.high (by decide) (Or.inl rfl)
      (by decide) (by decide)
    rw [h]
    decide
  · have h := parseModelDirective_amended.2.1 (lit "gpt-4o") (by decide) ?noex
    case noex =>
      rintro ⟨b, raw, lvl, sep, eff, h1, h2, h3, h4⟩
      have hhit := @findDirective_hit b raw lvl sep eff h2 h3 h4
      rw [← h1] at hhit
      have hnone : findDirective effortAliasList (jsTrim (lit "gpt-4o")) = none := by
        decide
      rw [hnone] at hhit
      exact absurd hhit (by simp)
    rw [h]
    decide
  · exact parseModelDirective_amended.2.2 (lit " ") (by decide)

/- ### Claim C10: forced request headers in requestGeminiNative
(src/lib/providers/gemini-native.ts lines 218-228, src/unnamed/part_002
lines 325-341) -/

/-- Case-insensitive header-name equality, as the Fetch `Headers` object
compares names. -/
def headerNameEq (a b : Str) : Bool := toLowerStr a = toLowerStr b

/-- Model of `Headers.set(k, v)`: replace the value of the first
case-insensitive match (removing later duplicates) or append. -/
def headersSet (hs : List (Str × Str)) (k v : Str) : List (Str × Str) :=
  match hs with
  | [] => [(k, v)]
  | (k0, v0) :: rest =>
    if headerNameEq k0 k then
      (k0, v) :: rest.filter (fun e => !headerNameEq e.1 k)
    else (k0, v0) :: headersSet rest k v

/-- Model of `Headers.get(k)`. -/
def headersGet (hs : List (Str × Str)) (k : Str) : Option Str :=
  match hs with
  | [] => none
  | (k0, v0) :: rest => if headerNameEq k0 k then some v0 else headersGet rest k

/-- Headers built by `requestGeminiNative` (gemini-native.ts lines 218-228):
the initial Authorization / Content-Type / User-Agent headers, the user's
requestHeaders entries applied via `set` in order, then Authorization and
Content-Type forced again. -/
def buildGeminiHeaders (apiKey : Str) (requestHeaders : List (Str × Str)) :
    List (Str × Str) :=
  headersSet
    (headersSet
      (requestHeaders.foldl (fun h kv => headersSet h kv.1 kv.2)
        [(lit "Authorization", lit "Bearer " ++ apiKey),
         (lit "Content-Type", lit "application/json"),
         (lit "User-Agent", lit "check-cx/0.1.0")])
      (lit "Authorization") (lit "Bearer " ++ apiKey))
    (lit "Content-Type") (lit "application/json")

/-- Accept value forced by src/unnamed/part_002 lines 336-341. -/
def acceptValue : GeminiAction → Str
  | .streamGenerateContent => lit "application/json, text/event-stream"
  | .generateContent => lit "application/json"

/-- Headers built by the action-aware `requestGeminiNative` of
src/unnamed/part_002 lines 325-341: same as `buildGeminiHeaders`, then the
Accept header is forced according to the action. -/
def buildGeminiHeadersAction (apiKey : Str) (requestHeaders : List (Str × Str))
    (action : GeminiAction) : List (Str × Str) :=
  headersSet (buildGeminiHeaders apiKey requestHeaders) (lit "Accept")
    (acceptValue action)

theorem headerNameEq_refl (k : Str) : headerNameEq k k = true := by
  simp [headerNameEq]

theorem headersGet_set_self (hs : List (Str × Str)) (k v : Str) :
    headersGet (headersSet hs k v) k = some v := by
  induction hs with
  | nil => simp [headersSet, headersGet, headerNameEq_refl]
  | cons e rest ih =>
    obtain ⟨k0, v0⟩ := e
    rw [headersSet]
    by_cases h : headerNameEq k0 k = true
    · rw [if_pos h, headersGet, if_pos h]
    · rw [if_neg h, headersGet, if_neg h]
      exact ih

theorem headersGet_filter_ne {rest : List (Str × Str)} {k k' : Str}
    (h : toLowerStr k' ≠ toLowerStr k) :
    headersGet (rest.filter (fun e => !headerNameEq e.1 k)) k' =
      headersGet rest k' := by
  induction rest with
  | nil => rfl
  | cons e rest ih =>
    obtain ⟨k0, v0⟩ := e
    by_cases h0 : headerNameEq k0 k = true
    · have h0' : headerNameEq k0 k' = false := by
        simp only [headerNameEq, decide_eq_true_eq] at h0 ⊢
        rw [h0]
        simp [Ne.symm h]
      rw [List.filter_cons]
      simp only [h0, Bool.not_true, if_false]
      rw [headersGet, h0']
      simp only [Bool.false_eq_true, if_false]
      exact ih
    · rw [List.filter_cons]
      simp only [h0, Bool.not_false, if_true]
      rw [headersGet, headersGet]
      by_cases h1 : headerNameEq k0 k' = true
      · rw [if_pos h1, if_pos h1]
      · rw [if_neg h1, if_neg h1]
        exact ih

theorem headersGet_set_ne {hs : List (Str × Str)} {k v k' : Str}
    (h : toLowerStr k' ≠ toLowerStr k) :
    headersGet (headersSet hs k v) k' = headersGet hs k' := by
  induction hs with
  | nil =>
    have hne : headerNameEq k k' = false := by
      rw [headerNameEq]
      exact decide_eq_false (fun he => h he.symm)
    show (if headerNameEq k k' = true then some v else headersGet [] k')
      = headersGet [] k'
    rw [hne]
    simp
  | cons e rest ih =>
    obtain ⟨k0, v0⟩ := e
    rw [headersSet]
    by_cases h0 : headerNameEq k0 k = true
    · rw [if_pos h0, headersGet, headersGet]
      by_cases h1 : headerNameEq k0 k' = true
      · exfalso
        simp only [headerNameEq, decide_eq_true_eq] at h0 h1
        exact h (h1.symm.trans h0)
      · rw [if_neg h1, if_neg h1]
        exact headersGet_filter_ne h
    · rw [if_neg h0, headersGet, headersGet]
      by_cases h1 : headerNameEq k0 k' = true
      · rw [if_pos h1, if_pos h1]
      · rw [if_neg h1, if_neg h1]
        exact ih

theorem headersGet_foldl_clean {hs : List (Str × Str)} {k : Str}
    (hclean : ∀ e ∈ hs, toLowerStr k ≠ toLowerStr e.1) :
    ∀ h0 : List (Str × Str),
      headersGet (hs.foldl (fun h kv => headersSet h kv.1 kv.2) h0) k =
        headersGet h0 k := by
  induction hs with
  | nil => intro h0; rfl
  | cons e rest ih =>
    intro h0
    rw [List.foldl_cons]
    rw [ih (fun e' he' => hclean e' (List.mem_cons_of_mem _ he'))]
    exact headersGet_set_ne (hclean e (List.mem_cons_self _ _))

theorem headersGet_foldl_last {hs : List (Str × Str)} {k v : Str}
    {pre post : List (Str × Str)} (hdec : hs = pre ++ (k, v) :: post)
    (hclean : ∀ e ∈ post, toLowerStr k ≠ toLowerStr e.1) (h0 : List (Str × Str)) :
    headersGet (hs.foldl (fun h kv => headersSet h kv.1 kv.2) h0) k = some v := by
  subst hdec
  rw [List.foldl_append, List.foldl_cons]
  rw [headersGet_foldl_clean hclean]
  exact headersGet_set_self _ _ _

/-- C10 counterexample: in the action-aware `requestGeminiNative` of
src/unnamed/part_002 (cited lines 325-341), a user-supplied Accept entry —
which is neither Authorization nor Content-Type — is not applied: the code
forces Accept after the user headers, so the claim's "all other
user-supplied header entries are applied" fails. -/
theorem requestGeminiNative_forces_accept :
    headersGet
        (buildGeminiHeadersAction (lit "k") [(lit "Accept", lit "text/html")]
          .streamGenerateContent)
        (lit "Accept")
      = some (lit "application/json, text/event-stream") ∧
    some (lit "application/json, text/event-stream") ≠ some (lit "text/html") := by
  refine ⟨by decide, by decide⟩

/-- C10 (amended): in requestGeminiNative, for every user-supplied
requestHeaders map, the outgoing request always carries Authorization equal
to "Bearer " + apiKey and Content-Type equal to "application/json"; entries
in requestHeaders for those two keys never override these forced values.
Every other user-supplied header entry is applied (the last entry for a
name winning), except that the action-aware variant of
src/unnamed/part_002 additionally forces the Accept header after the user
headers are applied, so a user Accept entry is overridden there too. -/
theorem requestGeminiNative_forced_headers :
    (∀ (apiKey : Str) (rh : List (Str × Str)) (action : GeminiAction),
      headersGet (buildGeminiHeaders apiKey rh) (lit "Authorization")
        = some (lit "Bearer " ++ apiKey) ∧
      headersGet (buildGeminiHeaders apiKey rh) (lit "Content-Type")
        = some (lit "application/json") ∧
      headersGet (buildGeminiHeadersAction apiKey rh action) (lit "Authorization")
        = some (lit "Bearer " ++ apiKey) ∧
      headersGet (buildGeminiHeadersAction apiKey rh action) (lit "Content-Type")
        = some (lit "application/json")) ∧
    (∀ (apiKey : Str) (pre post : List (Str × Str)) (k v : Str),
      toLowerStr k ≠ toLowerStr (lit "Authorization") →
      toLowerStr k ≠ toLowerStr (lit "Content-Type") →
      (∀ e ∈ post, toLowerStr k ≠ toLowerStr e.1) →
      headersGet (buildGeminiHeaders apiKey (pre ++ (k, v) :: post)) k = some v) ∧
    (∀ (apiKey : Str) (pre post : List (Str × Str)) (k v : Str) (action : GeminiAction),
      toLowerStr k ≠ toLowerStr (lit "Authorization") →
      toLowerStr k ≠ toLowerStr (lit "Content-Type") →
      toLowerStr k ≠ toLowerStr (lit "Accept") →
      (∀ e ∈ post, toLowerStr k ≠ toLowerStr e.1) →
      headersGet (buildGeminiHeadersAction apiKey (pre ++ (k, v) :: post) action) k
        = some v) := by
  have hac : toLowerStr (lit "Authorization") ≠ toLowerStr (lit "Content-Type") := by
    decide
  refine ⟨?_, ?_, ?_⟩
  · intro apiKey rh action
    refine ⟨?_, ?_, ?_, ?_⟩
    · rw [buildGeminiHeaders, headersGet_set_ne hac, headersGet_set_self]
    · rw [buildGeminiHeaders, headersGet_set_self]
    · rw [buildGeminiHeadersAction, headersGet_set_ne (by decide), buildGeminiHeaders,
        headersGet_set_ne hac, headersGet_set_self]
    · rw [buildGeminiHeadersAction, headersGet_set_ne (by decide), buildGeminiHeaders,
        headersGet_set_self]
  · intro apiKey pre post k v hka hkc hclean
    rw [buildGeminiHeaders, headersGet_set_ne hkc, headersGet_set_ne hka]
    exact headersGet_foldl_last rfl hclean _
  · intro apiKey pre post k v action hka hkc hkacc hclean
    rw [buildGeminiHeadersAction, headersGet_set_ne hkacc, buildGeminiHeaders,
      headersGet_set_ne hkc, headersGet_set_ne hka]
    exact headersGet_foldl_last rfl hclean _

/-- Witness for `requestGeminiNative_forced_headers` at concrete inputs:
a requestHeaders map that tries to override Authorization and also carries
an unrelated X-Test header. -/
theorem requestGeminiNative_forced_headers_witness :
    headersGet
        (buildGeminiHeaders (lit "sk-1")
          [(lit "authorization", lit "Bearer evil"), (lit "X-Test", lit "1")])
        (lit "Authorization")
      = some (lit "Bearer sk-1") ∧
    headersGet
        (buildGeminiHeaders (lit "sk-1")
          [(lit "authorization", lit "Bearer evil"), (lit "X-Test", lit "1")])
        (lit "X-Test")
      = some (lit "1") := by
  constructor
  · exact (requestGeminiNative_forced_headers.1 (lit "sk-1")
      [(lit "authorization", lit "Bearer evil"), (lit "X-Test", lit "1")]
      .streamGenerateContent).1
  · exact requestGeminiNative_forced_headers.2.1 (lit "sk-1")
      [(lit "authorization", lit "Bearer evil")] [] (lit "X-Test") (lit "1")
      (by decide) (by decide) (by intro e he; simp at he)

/- ### Check orchestration models
(src/lib/providers/ai-sdk-check.ts lines 515-606,
src/lib/providers/gemini-native.ts lines 340-397).

The network outcome of the adapter call is modelled as
`Except JsError Str` (a thrown error or the collected text), the elapsed
wall-clock time as a `Nat`, and the concurrently measured ping as an
`Option Nat`.  `validateResponse` lives in the challenge module, which is
absent from src/, so it is abstracted as a parameter
`validate : Str → Bool × List Str` (valid flag and extracted numbers);
likewise the `getErrorMessage` used by the Gemini check comes from the
absent `utils/error-handler` module and is abstracted as
`errMsg : JsError → Str`. -/

/-- Health status of a CheckResult. -/
inductive CheckStatus
  | operational
  | degraded
  | validation_failed
  | failed
  | error
deriving DecidableEq

/-- A caught JavaScript error: its `name` and `message`. -/
structure JsError where
  name : Str
  message : Str
deriving DecidableEq

/-- The classification-relevant fields of a CheckResult. -/
structure CheckResultM where
  status : CheckStatus
  latencyMs : Option Nat
  pingLatencyMs : Option Nat
  message : Str
deriving DecidableEq

/-- Model of `isTimeoutError` (ai-sdk-check.ts lines 385-394): AbortError
by name, or a message containing "request was aborted" or "timeout"
case-insensitively. -/
def isTimeoutError (e : JsError) : Bool :=
  e.name = lit "AbortError" ||
  hasSubstr (lit "request was aborted") (toLowerStr e.message) ||
  hasSubstr (lit "timeout") (toLowerStr e.message)

/-- Model of `getErrorMessage` (ai-sdk-check.ts lines 402-407): timeouts
render as the fixed sanitized message, otherwise the raw message or a
default. -/
def getErrorMessage (e : JsError) : Str :=
  if isTimeoutError e then lit "请求超时"
  else if e.message ≠ [] then e.message
  else lit "未知错误"

/-- Model of `extractedNumbers?.join(", ") || "(无数字)"`. -/
def joinNums (nums : List Str) : Str :=
  if List.intercalate (lit ", ") nums = [] then lit "(无数字)"
  else List.intercalate (lit ", ") nums

/-- Default degraded threshold (`DEGRADED_THRESHOLD_MS`), 6000 ms in both
check modules; src/unnamed/part_002 allows an environment override, so the
threshold is a parameter there. -/
def DEGRADED_THRESHOLD_MS : Nat := 6000

/-- Classification of a collected response text, shared verbatim by
checkWithAiSdk (lines 561-599) and checkWithGeminiNative (lines 363-390):
empty trimmed text fails, invalid answers give validation_failed, valid
answers are operational or degraded by the latency threshold. -/
def classifyResponse (validate : Str → Bool × List Str) (expectedAnswer : Str)
    (threshold : Nat) (text : Str) (elapsed : Nat) (ping : Option Nat) :
    CheckResultM :=
  if jsTrim text = [] then
    ⟨.failed, some elapsed, ping, lit "回复为空"⟩
  else if (validate text).1 = false then
    ⟨.validation_failed, some elapsed, ping,
      lit "回复验证失败: 期望 " ++ expectedAnswer ++ lit ", 实际: " ++
        joinNums (validate text).2⟩
  else if elapsed ≤ threshold then
    ⟨.operational, some elapsed, ping, lit "验证通过 (" ++ natStr elapsed ++ lit "ms)"⟩
  else
    ⟨.degraded, some elapsed, ping, lit "响应成功但耗时 " ++ natStr elapsed ++ lit "ms"⟩

/-- Model of `checkWithAiSdk` result assembly (ai-sdk-check.ts lines
535-605): a caught error gives status "failed" with a null latency and the
sanitized message; otherwise the response is classified. -/
def checkWithAiSdk (validate : Str → Bool × List Str) (expectedAnswer : Str)
    (outcome : Except JsError Str) (elapsed : Nat) (ping : Option Nat) :
    CheckResultM :=
  match outcome with
  | .error e => ⟨.failed, none, ping, getErrorMessage e⟩
  | .ok text => classifyResponse validate expectedAnswer DEGRADED_THRESHOLD_MS text elapsed ping

/-- Model of `checkWithGeminiNative` result assembly (gemini-native.ts
lines 349-396): a caught error gives status "error" with the elapsed
latency and the sanitized message from the external error handler;
otherwise the response is classified. -/
def checkWithGeminiNative (validate : Str → Bool × List Str) (expectedAnswer : Str)
    (outcome : Except JsError Str) (elapsed : Nat) (ping : Option Nat)
    (errMsg : JsError → Str) : CheckResultM :=
  match outcome with
  | .error e => ⟨.error, some elapsed, ping, errMsg e⟩
  | .ok text => classifyResponse validate expectedAnswer DEGRADED_THRESHOLD_MS text elapsed ping

/-- C1: for every provider check whose reply is non-empty after trimming
and passes answer validation, the returned CheckResult has status
"operational" if the elapsed latency is ≤ 6000 ms (the default degraded
threshold) and status "degraded" if it exceeds 6000 ms, with latencyMs set
to the elapsed time and the message stating the elapsed milliseconds. -/
theorem check_valid_latency_classification
    (validate : Str → Bool × List Str) (expectedAnswer text : Str)
    (elapsed : Nat) (ping : Option Nat) (errMsg : JsError → Str)
    (hne : jsTrim text ≠ []) (hvalid : (validate text).1 = true) :
    (elapsed ≤ 6000 →
      (checkWithAiSdk validate expectedAnswer (.ok text) elapsed ping).status
        = .operational ∧
      (checkWithGeminiNative validate expectedAnswer (.ok text) elapsed ping errMsg).status
        = .operational) ∧
    (6000 < elapsed →
      (checkWithAiSdk validate expectedAnswer (.ok text) elapsed ping).status
        = .degraded ∧
      (checkWithGeminiNative validate expectedAnswer (.ok text) elapsed ping errMsg).status
        = .degraded) ∧
    (checkWithAiSdk validate expectedAnswer (.ok text) elapsed ping).latencyMs
      = some elapsed ∧
    (checkWithGeminiNative validate expectedAnswer (.ok text) elapsed ping errMsg).latencyMs
      = some elapsed ∧
    (∃ pre suf,
      (checkWithAiSdk validate expectedAnswer (.ok text) elapsed ping).message
        = pre ++ natStr elapsed ++ lit "ms" ++ suf) ∧
    (∃ pre suf,
      (checkWithGeminiNative validate expectedAnswer (.ok text) elapsed ping errMsg).message
        = pre ++ natStr elapsed ++ lit "ms" ++ suf) := by
  have hv : ¬ (validate text).1 = false := by simp [hvalid]
  have key : classifyResponse validate expectedAnswer DEGRADED_THRESHOLD_MS text elapsed ping
      = if elapsed ≤ 6000 then
          ⟨.operational, some elapsed, ping, lit "验证通过 (" ++ natStr elapsed ++ lit "ms)"⟩
        else
          ⟨.degraded, some elapsed, ping, lit "响应成功但耗时 " ++ natStr elapsed ++ lit "ms"⟩ := by
    rw [classifyResponse, if_neg hne, if_neg hv]
    rfl
  show _ ∧ _ ∧ _ ∧ _ ∧ _ ∧ _
  rw [checkWithAiSdk, checkWithGeminiNative, key]
  by_cases hle : elapsed ≤ 6000
  · rw [if_pos hle]
    refine ⟨fun _ => ⟨rfl, rfl⟩, fun hgt => absurd hle (by omega), rfl, rfl, ?_, ?_⟩
    · exact ⟨lit "验证通过 (", lit ")", by simp [lit]⟩
    · exact ⟨lit "验证通过 (", lit ")", by simp [lit]⟩
  · rw [if_neg hle]
    refine ⟨fun h => absurd h hle, fun _ => ⟨rfl, rfl⟩, rfl, rfl, ?_, ?_⟩
    · exact ⟨lit "响应成功但耗时 ", [], by simp [lit]⟩
    · exact ⟨lit "响应成功但耗时 ", [], by simp [lit]⟩

/-- Witness for `check_valid_latency_classification` at a concrete valid
reply answered in 123 ms. -/
theorem check_valid_latency_classification_witness :
    (checkWithAiSdk (fun _ => (true, [lit "8"])) (lit "8") (.ok (lit "8"))
      123 (some 45)).status = .operational ∧
    (checkWithGeminiNative (fun _ => (true, [lit "8"])) (lit "8") (.ok (lit "8"))
      123 (some 45) (fun _ => [])).status = .operational ∧
    (checkWithAiSdk (fun _ => (true, [lit "8"])) (lit "8") (.ok (lit "8"))
      123 (some 45)).latencyMs = some 123 := by
  have h := check_valid_latency_classification (fun _ => (true, [lit "8"]))
    (lit "8") (lit "8") 123 (some 45) (fun _ => []) (by decide) (by decide)
  exact ⟨(h.1 (by decide)).1, (h.1 (by decide)).2, h.2.2.1⟩

/-- C3: for every error caught during a provider check whose name is
"AbortError" or whose message indicates an abort or timeout, the returned
CheckResult has status in (failed, error) and its message equals the one
fixed timeout message "请求超时", never the raw internal error name.  The
AI-SDK check uses its own `getErrorMessage`; the Gemini-native check
imports the same sanitizer from the absent `utils/error-handler` module
(modelled from the spec as the same sanitized-cause function, so it is
instantiated with `getErrorMessage` here). -/
theorem timeout_error_sanitized
    (validate : Str → Bool × List Str) (expectedAnswer : Str) (e : JsError)
    (elapsed : Nat) (ping : Option Nat)
    (ht : e.name = lit "AbortError" ∨
      hasSubstr (lit "request was aborted") (toLowerStr e.message) = true ∨
      hasSubstr (lit "timeout") (toLowerStr e.message) = true) :
    ((checkWithAiSdk validate expectedAnswer (.error e) elapsed ping).status = .failed ∨
     (checkWithAiSdk validate expectedAnswer (.error e) elapsed ping).status = .error) ∧
    (checkWithAiSdk validate expectedAnswer (.error e) elapsed ping).message
      = lit "请求超时" ∧
    ((checkWithGeminiNative validate expectedAnswer (.error e) elapsed ping
        getErrorMessage).status = .failed ∨
     (checkWithGeminiNative validate expectedAnswer (.error e) elapsed ping
        getErrorMessage).status = .error) ∧
    (checkWithGeminiNative validate expectedAnswer (.error e) elapsed ping
        getErrorMessage).message = lit "请求超时" := by
  have hto : isTimeoutError e = true := by
    rw [isTimeoutError]
    rcases ht with h | h | h
    · simp [h]
    · simp [h]
    · simp [h]
  have hmsg : getErrorMessage e = lit "请求超时" := by
    rw [getErrorMessage, if_pos hto]
  exact ⟨Or.inl rfl, hmsg, Or.inr rfl, hmsg⟩

/-- Witness for `timeout_error_sanitized` at a concrete AbortError. -/
theorem timeout_error_sanitized_witness :
    (checkWithAiSdk (fun _ => (true, [])) (lit "8")
      (.error ⟨lit "AbortError", lit "This operation was aborted"⟩)
      99 none).message = lit "请求超时" ∧
    (checkWithGeminiNative (fun _ => (true, [])) (lit "8")
      (.error ⟨lit "AbortError", lit "This operation was aborted"⟩)
      99 none getErrorMessage).status = .error := by
  have h := timeout_error_sanitized (fun _ => (true, [])) (lit "8")
    ⟨lit "AbortError", lit "This operation was aborted"⟩ 99 none (Or.inl rfl)
  refine ⟨h.2.1, ?_⟩
  rcases h.2.2.1 with h' | h'
  · cases h'
  · exact h'

/-- C7: for any two executions of a provider check that are identical
except for the outcome of the concurrent ping measurement (any elapsed
number, or null on ping failure), the returned CheckResults agree on
status, latencyMs and message; only the pingLatencyMs field may differ, and
it simply records the ping outcome. -/
theorem ping_outcome_invisible_to_status
    (validate : Str → Bool × List Str) (expectedAnswer : Str)
    (outcome : Except JsError Str) (elapsed : Nat) (ping1 ping2 : Option Nat)
    (errMsg : JsError → Str) :
    (checkWithAiSdk validate expectedAnswer outcome elapsed ping1).status
      = (checkWithAiSdk validate expectedAnswer outcome elapsed ping2).status ∧
    (checkWithAiSdk validate expectedAnswer outcome elapsed ping1).latencyMs
      = (checkWithAiSdk validate expectedAnswer outcome elapsed ping2).latencyMs ∧
    (checkWithAiSdk validate expectedAnswer outcome elapsed ping1).message
      = (checkWithAiSdk validate expectedAnswer outcome elapsed ping2).message ∧
    (checkWithAiSdk validate expectedAnswer outcome elapsed ping1).pingLatencyMs = ping1 ∧
    (checkWithGeminiNative validate expectedAnswer outcome elapsed ping1 errMsg).status
      = (checkWithGeminiNative validate expectedAnswer outcome elapsed ping2 errMsg).status ∧
    (checkWithGeminiNative validate expectedAnswer outcome elapsed ping1 errMsg).latencyMs
      = (checkWithGeminiNative validate expectedAnswer outcome elapsed ping2 errMsg).latencyMs ∧
    (checkWithGeminiNative validate expectedAnswer outcome elapsed ping1 errMsg).message
      = (checkWithGeminiNative validate expectedAnswer outcome elapsed ping2 errMsg).message ∧
    (checkWithGeminiNative validate expectedAnswer outcome elapsed ping1 errMsg).pingLatencyMs
      = ping1 := by
  cases outcome with
  | error e => exact ⟨rfl, rfl, rfl, rfl, rfl, rfl, rfl, rfl⟩
  | ok text =>
    refine ⟨?_, ?_, ?_, ?_, ?_, ?_, ?_, ?_⟩ <;>
      simp only [checkWithAiSdk, checkWithGeminiNative, classifyResponse] <;>
      split_ifs <;> rfl

/-- C2 counterexample: on the Gemini-native no-response (caught error)
path, latencyMs is the measured elapsed time, not null, while the status is
"error" — so "latencyMs is null if and only if status ∈ (failed, error) on
the no-response path" fails in the right-to-left direction. -/
theorem latency_null_iff_counterexample :
    (checkWithGeminiNative (fun _ => (true, [])) (lit "8")
      (.error ⟨lit "TypeError", lit "fetch failed"⟩) 100 none
      (fun e => e.message)).status = .error ∧
    (checkWithGeminiNative (fun _ => (true, [])) (lit "8")
      (.error ⟨lit "TypeError", lit "fetch failed"⟩) 100 none
      (fun e => e.message)).latencyMs = some 100 ∧
    ¬ ((checkWithGeminiNative (fun _ => (true, [])) (lit "8")
        (.error ⟨lit "TypeError", lit "fetch failed"⟩) 100 none
        (fun e => e.message)).latencyMs = none ↔
       ((checkWithGeminiNative (fun _ => (true, [])) (lit "8")
          (.error ⟨lit "TypeError", lit "fetch failed"⟩) 100 none
          (fun e => e.message)).status = .failed ∨
        (checkWithGeminiNative (fun _ => (true, [])) (lit "8")
          (.error ⟨lit "TypeError", lit "fetch failed"⟩) 100 none
          (fun e => e.message)).status = .error)) := by
  refine ⟨rfl, rfl, ?_⟩
  intro h
  have := h.mpr (Or.inr rfl)
  simp [checkWithGeminiNative] at this

/-- C2 (amended): latencyMs is null exactly on the AI-SDK check's
transport/cancellation failure branch, where the elapsed time is not
recorded; the Gemini-native check records the elapsed time on every branch,
including its error branch; and a null latencyMs only ever accompanies a
failed status. -/
theorem latency_null_characterization
    (validate : Str → Bool × List Str) (expectedAnswer : Str)
    (elapsed : Nat) (ping : Option Nat) (errMsg : JsError → Str) :
    (∀ outcome : Except JsError Str,
      (checkWithAiSdk validate expectedAnswer outcome elapsed ping).latencyMs = none
        ↔ ∃ e, outcome = Except.error e) ∧
    (∀ outcome : Except JsError Str,
      (checkWithGeminiNative validate expectedAnswer outcome elapsed ping errMsg).latencyMs
        = some elapsed) ∧
    (∀ outcome : Except JsError Str,
      (checkWithAiSdk validate expectedAnswer outcome elapsed ping).latencyMs = none →
      (checkWithAiSdk validate expectedAnswer outcome elapsed ping).status = .failed) := by
  have hclassify : ∀ text,
      (classifyResponse validate expectedAnswer DEGRADED_THRESHOLD_MS text elapsed ping).latencyMs
        = some elapsed := by
    intro text
    rw [classifyResponse]
    split_ifs <;> rfl
  refine ⟨?_, ?_, ?_⟩
  · intro outcome
    cases outcome with
    | error e => simp [checkWithAiSdk]
    | ok text =>
      simp only [checkWithAiSdk, hclassify]
      constructor
      · intro h
        cases h
      · rintro ⟨e, he⟩
        cases he
  · intro outcome
    cases outcome with
    | error e => rfl
    | ok text => exact hclassify text
  · intro outcome
    cases outcome with
    | error e => intro _; rfl
    | ok text =>
      intro h
      rw [checkWithAiSdk, hclassify] at h
      cases h

/- ### Claim C5: Gemini two-attempt policy
(src/unnamed/part_002 lines 449-513) -/

/-- The resolved URLs of the requests issued by the action-aware
`checkWithGeminiNative` of src/unnamed/part_002, as a function of the first
(streaming) attempt's outcome: a second, non-streaming request is issued
exactly when the first attempt returned text that is empty after
trimming. -/
def geminiRequestsIssued (endpoint model : Str) (firstAttempt : Except JsError Str) :
    List Str :=
  match firstAttempt with
  | .error _ => [resolveGeminiUrlForAction endpoint model .streamGenerateContent]
  | .ok t =>
    if jsTrim t = [] then
      [resolveGeminiUrlForAction endpoint model .streamGenerateContent,
       resolveGeminiUrlForAction endpoint model .generateContent]
    else
      [resolveGeminiUrlForAction endpoint model .streamGenerateContent]

/-- Model of the retrying `checkWithGeminiNative` of src/unnamed/part_002
lines 449-513: a first streaming attempt, one non-streaming retry if it
returned blank text, then the shared classification; a thrown error on
either attempt is caught into an "error" result with the elapsed time.
The degraded threshold is environment-tunable there, hence a parameter. -/
def checkWithGeminiNativeRetry (validate : Str → Bool × List Str)
    (expectedAnswer : Str) (a1 a2 : Except JsError Str) (elapsed : Nat)
    (ping : Option Nat) (errMsg : JsError → Str) (threshold : Nat) :
    CheckResultM :=
  match a1 with
  | .error e => ⟨.error, some elapsed, ping, errMsg e⟩
  | .ok t1 =>
    if jsTrim t1 = [] then
      match a2 with
      | .error e => ⟨.error, some elapsed, ping, errMsg e⟩
      | .ok t2 => classifyResponse validate expectedAnswer threshold t2 elapsed ping
    else classifyResponse validate expectedAnswer threshold t1 elapsed ping

/-- C5: in the Gemini-native check, if and only if the first (streaming)
request returns text that is empty after trimming, exactly one further
request is issued using the non-streaming generateContent action against
the same resolved endpoint; at most two requests are ever made per check,
and if both attempts yield empty text the result has status "failed" with
the empty-reply message. -/
theorem gemini_two_attempt_policy (endpoint model : Str)
    (validate : Str → Bool × List Str) (expectedAnswer : Str)
    (a1 a2 : Except JsError Str) (elapsed : Nat) (ping : Option Nat)
    (errMsg : JsError → Str) (threshold : Nat) :
    (geminiRequestsIssued endpoint model a1).length ≤ 2 ∧
    (geminiRequestsIssued endpoint model a1
        = [resolveGeminiUrlForAction endpoint model .streamGenerateContent,
           resolveGeminiUrlForAction endpoint model .generateContent]
      ↔ ∃ t, a1 = Except.ok t ∧ jsTrim t = []) ∧
    (∀ t1, a1 = Except.ok t1 → jsTrim t1 ≠ [] →
      geminiRequestsIssued endpoint model a1
        = [resolveGeminiUrlForAction endpoint model .streamGenerateContent]) ∧
    (∀ t1 t2, a1 = Except.ok t1 → jsTrim t1 = [] → a2 = Except.ok t2 →
      jsTrim t2 = [] →
      checkWithGeminiNativeRetry validate expectedAnswer a1 a2 elapsed ping
          errMsg threshold
        = ⟨.failed, some elapsed, ping, lit "回复为空"⟩) := by
  refine ⟨?_, ?_, ?_, ?_⟩
  · cases a1 with
    | error e => simp [geminiRequestsIssued]
    | ok t =>
      rw [geminiRequestsIssued]
      split_ifs <;> simp
  · constructor
    · intro h
      cases a1 with
      | error e =>
        rw [geminiRequestsIssued] at h
        simp at h
      | ok t =>
        rw [geminiRequestsIssued] at h
        by_cases ht : jsTrim t = []
        · exact ⟨t, rfl, ht⟩
        · rw [if_neg ht] at h
          simp at h
    · rintro ⟨t, rfl, ht⟩
      rw [geminiRequestsIssued, if_pos ht]
  · intro t1 h1 hne
    subst h1
    rw [geminiRequestsIssued, if_neg hne]
  · intro t1 t2 h1 he1 h2 he2
    subst h1
    subst h2
    rw [checkWithGeminiNativeRetry]
    show (if jsTrim t1 = [] then _ else _) = _
    rw [if_pos he1]
    show classifyResponse validate expectedAnswer threshold t2 elapsed ping = _
    rw [classifyResponse, if_pos he2]

/-- Witness for `gemini_two_attempt_policy`: a blank streaming reply
triggers exactly one generateContent retry on the same endpoint, and two
blank replies produce the failed empty-reply result. -/
theorem gemini_two_attempt_policy_witness :
    geminiRequestsIssued (lit "https://g.example/v1beta/models") (lit "m")
        (Except.ok (lit ""))
      = [lit "https://g.example/v1beta/models/m:streamGenerateContent",
         lit "https://g.example/v1beta/models/m:generateContent"] ∧
    checkWithGeminiNativeRetry (fun _ => (true, [])) (lit "8")
        (Except.ok (lit "")) (Except.ok (lit " ")) 10 none (fun _ => []) 6000
      = ⟨.failed, some 10, none, lit "回复为空"⟩ := by
  have h := gemini_two_attempt_policy (lit "https://g.example/v1beta/models")
    (lit "m") (fun _ => (true, [])) (lit "8") (Except.ok (lit ""))
    (Except.ok (lit " ")) 10 none (fun _ => []) 6000
  constructor
  · rw [h.2.1.mpr ⟨lit "", rfl, by decide⟩]
    decide
  · exact h.2.2.2 (lit "") (lit " ") rfl (by decide) rfl (by decide)

/- ### Claim C4: poller single-flight tick (src/lib/poller.ts lines 13-98) -/

/-- The poller's module-level state: the single-flight running flag and the
start timestamp of the last tick that began running. -/
structure PollerState where
  running : Bool
  lastStartedAt : Option Nat
deriving DecidableEq

/-- Outcome of the body of a tick: `runProviderChecks` either throws or
returns a list of results (handed to `appendHistory` when non-empty). -/
inductive TickOutcome
  | checksThrow
  | checksReturn (results : List CheckResultM)

/-- Observable effects of one `tick()` call: how many times
`runProviderChecks` was invoked, how many `appendHistory` writes happened,
and whether a skip diagnostic (with its optional in-flight duration) was
logged. -/
structure TickEffects where
  checkInvocations : Nat
  historyAppends : Nat
  skipLogged : Option (Option Nat)
deriving DecidableEq

/-- Duration printed by the skip diagnostic: `lastStartedAt ? Date.now() -
lastStartedAt : null` — note JS treats a 0 timestamp as falsy. -/
def skipDuration (lastStartedAt : Option Nat) (now : Nat) : Option Nat :=
  match lastStartedAt with
  | some t => if t ≠ 0 then some (now - t) else none
  | none => none

/-- Body of a non-skipped `tick()`: record the start time, run the checks
once, append the non-empty batch once, and leave the running flag false on
every exit path (including the empty-results early return and the catch
branch) via the `finally` block. -/
def tickRun (now : Nat) : TickOutcome → PollerState × TickEffects
  | .checksThrow => (⟨false, some now⟩, ⟨1, 0, none⟩)
  | .checksReturn rs =>
    (⟨false, some now⟩, ⟨1, if rs = [] then 0 else 1, none⟩)

/-- Model of `tick()` (poller.ts lines 13-98): a set running flag makes the
tick return immediately after the skip diagnostic, touching nothing;
otherwise the body runs via `tickRun`. -/
def tick (st : PollerState) (now : Nat) (outcome : TickOutcome) :
    PollerState × TickEffects :=
  if st.running then
    (st, ⟨0, 0, some (skipDuration st.lastStartedAt now)⟩)
  else tickRun now outcome

/-- C4: whenever the poller's tick fires while the previous tick is still
running, the new tick performs zero provider-check invocations and zero
history appends, leaves the poller state untouched (so nothing is queued
for later execution), and only a skip diagnostic with the in-flight
duration is emitted; when a tick does run, the running flag is false again
on every exit path (throw, empty results, or a written batch). -/
theorem poller_single_flight :
    (∀ (st : PollerState) (now : Nat) (o : TickOutcome), st.running = true →
      tick st now o = (st, ⟨0, 0, some (skipDuration st.lastStartedAt now)⟩)) ∧
    (∀ (st : PollerState) (now : Nat) (o : TickOutcome), st.running = false →
      ((tick st now o).1).running = false) := by
  refine ⟨?_, ?_⟩
  · intro st now o h
    rw [tick, if_pos h]
  · intro st now o h
    rw [tick, if_neg (by simp [h])]
    cases o with
    | checksThrow => rfl
    | checksReturn rs => rfl

/-- Witness for `poller_single_flight`: a tick arriving while a tick that
started at time 5 is still running at time 12 is skipped with a 7 ms
in-flight note, and a completed tick ends with the flag cleared. -/
theorem poller_single_flight_witness :
    tick ⟨true, some 5⟩ 12 .checksThrow
      = (⟨true, some 5⟩, ⟨0, 0, some (some 7)⟩) ∧
    ((tick ⟨false, none⟩ 12 (.checksReturn [])).1).running = false := by
  constructor
  · have h := poller_single_flight.1 ⟨true, some 5⟩ 12 .checksThrow rfl
    rw [h]
    decide
  · exact poller_single_flight.2 ⟨false, none⟩ 12 (.checksReturn []) rfl
